import Mathlib

/-!
# Verification of `src/main/transmitter.py` (`NeuralTransmitter`)

Shallow embedding of the `NeuralTransmitter` class.  Numeric values are
modelled as rationals (`ℚ`) except where the source takes a square root,
which is modelled over `ℝ`.

The stochastic parts (TensorFlow graph sampling) are modelled by passing
the sampled batches as explicit arguments: the claims under study are
about the deterministic data-flow around the samples, not about the
distribution of the samples themselves.
-/

deriving instance DecidableEq for Except

namespace Transmitter

/-- Runtime errors surfaced by the Python code.
`attributeError` models Python's `AttributeError` (accessing
`self.input_accum` / `self.actions_re_accum` / `self.evaluate` before they
exist); `valueError` models numpy's `ValueError` on a failed broadcast. -/
inductive PyError where
  | attributeError : PyError
  | valueError : PyError
deriving DecidableEq, Repr

/-- The Trajectory Cache: the triple of instance attributes
`self.input_accum`, `self.actions_re_accum`, `self.actions_im_accum`
set by `transmit(..., save=True)` (transmitter.py lines 193-196).
`np.squeeze` applied to the 1-D sampled batch is the identity for
batches of length ≥ 2, and for a length-1 batch yields a 0-d scalar
that behaves identically to the length-1 array under the elementwise
arithmetic of `lasso_loss` (numpy broadcasting), so the cached actions
are modelled as lists; the rank lost by the squeeze is recovered from
the stored length (length 1 ⟺ 0-d) where it matters, namely at the
`sess.run` feed-shape check in `policy_update`. -/
structure Traj where
  input_accum : List (List ℚ)
  actions_re_accum : List ℚ
  actions_im_accum : List ℚ
deriving DecidableEq, Repr

/-- The mutable state of a `NeuralTransmitter` instance relevant to the
claims: the configuration flags fixed in `__init__`, the trainable
policy parameters (weights, biases and the two log-stds, abstracted as
a list of scalars: only *whether* they change matters here), and the
optional Trajectory Cache.  `cache = none` models the state where the
`*_accum` attributes have never been assigned, so that reading them
raises `AttributeError`. -/
structure TxState where
  restrict_energy : Bool
  lambda_p : ℚ
  params : List ℚ
  cache : Option Traj
deriving DecidableEq, Repr

/-- The state produced by `NeuralTransmitter.__init__`: the `*_accum`
attributes are not assigned anywhere in `__init__` (lines 19-126), so the
cache starts absent. -/
def init_state (restrict_energy : Bool) (lambda_p : ℚ) (params : List ℚ) : TxState :=
  { restrict_energy := restrict_energy, lambda_p := lambda_p,
    params := params, cache := none }

/-- numpy elementwise subtraction of two 2-D arrays (rows of equal
per-sample width), with numpy's broadcasting rule on the batch (first)
axis: equal batch lengths subtract row-by-row; a batch of length 1 on
either side is broadcast against the other; any other length mismatch
raises `ValueError`. -/
def bsub (a b : List (List ℚ)) : Except PyError (List (List ℚ)) :=
  if a.length = b.length then
    .ok (List.zipWith (fun r s => List.zipWith (fun x y => x - y) r s) a b)
  else if b.length = 1 then
    .ok (a.map (fun r => List.zipWith (fun x y => x - y) r (b.headI)))
  else if a.length = 1 then
    .ok (b.map (fun s => List.zipWith (fun x y => x - y) (a.headI) s))
  else
    .error .valueError

/-- numpy elementwise addition of two 1-D arrays with broadcasting of a
length-1 operand; any other length mismatch raises `ValueError`. -/
def badd1 (a b : List ℚ) : Except PyError (List ℚ) :=
  if a.length = b.length then
    .ok (List.zipWith (fun x y => x + y) a b)
  else if b.length = 1 then
    .ok (a.map (fun x => x + b.headI))
  else if a.length = 1 then
    .ok (b.map (fun y => a.headI + y))
  else
    .error .valueError

/-- `np.linalg.norm(row, ord=1)`: the sum of absolute values of a row. -/
def l1norm (row : List ℚ) : ℚ := (row.map (fun z => |z|)).sum

/-- `NeuralTransmitter.lasso_loss` (lines 325-332):

    if (self.restrict_energy):
        return np.linalg.norm(self.input_accum - signal_b_g_g, ord=1, axis=1)
    else:
        return np.linalg.norm(self.input_accum - signal_b_g_g, ord=1, axis=1) + \
                self.lambda_p*(self.actions_re_accum**2 + self.actions_im_accum**2)

Reading `self.input_accum` (or the action accumulators) when they were
never assigned raises `AttributeError`; the subtraction and the addition
follow numpy broadcasting. -/
def lasso_loss (st : TxState) (signal_b_g_g : List (List ℚ)) : Except PyError (List ℚ) :=
  match st.cache with
  | none => .error .attributeError
  | some tr =>
    match bsub tr.input_accum signal_b_g_g with
    | .error e => .error e
    | .ok diff =>
      let l1 := diff.map l1norm
      if st.restrict_energy then .ok l1
      else
        badd1 l1 (List.zipWith
          (fun r i => st.lambda_p * (r ^ 2 + i ^ 2))
          tr.actions_re_accum tr.actions_im_accum)

/-- `np.average` of a 1-D array: sum divided by length. -/
def np_average (l : List ℚ) : ℚ := l.sum / l.length

/-- The value returned by `NeuralTransmitter.policy_update`
(lines 150-162): `adv = - self.lasso_loss(signal_b_g_g)` (elementwise
negation, so any `lasso_loss` error propagates first), then one
`sess.run` of the Adam update, and finally `return np.average(adv)`.

`sess.run` validates every fed value's shape against its placeholder
before running.  `self.actions_re` and `self.actions_im` are declared
with shape `[None]` (lines 43-44), but a trajectory saved from a batch
of length 1 stores `np.squeeze` of a shape-(1,) sample, which is a 0-d
scalar: feeding it raises `ValueError` ("Cannot feed value of shape ()
for Tensor of shape (?,)") before anything is returned.  A cached action
batch of any other length stays 1-D after the squeeze and passes the
check, so a stored action batch of length 1 is exactly the 0-d case.
The other fed values (`input_accum` 2-D, `adv` at least 1-D whenever
`lasso_loss` succeeds, two scalars) always match their placeholders.
The update op itself mutates only the trainable parameters and produces
no part of the return value. -/
def policy_update_ret (st : TxState) (signal_b_g_g : List (List ℚ)) : Except PyError ℚ :=
  match lasso_loss st signal_b_g_g with
  | .error e => .error e
  | .ok loss =>
    match st.cache with
    | none => .error .attributeError
    | some tr =>
      if tr.actions_re_accum.length = 1 ∨ tr.actions_im_accum.length = 1 then
        .error .valueError
      else
        .ok (np_average (loss.map (fun x => -x)))

/-- The value returned by `transmit` (line 198):
`signal_m = np.array([np.squeeze(re), np.squeeze(im)]).T`.
For a batch of length B ≥ 2 the sampled tensors have shape (B,), squeeze
leaves them unchanged, stacking gives shape (2, B) and the transpose has
shape (B, 2): a batch of (real, imaginary) rows.  For B = 1 the shapes
are (1,); `np.squeeze` collapses them to 0-d scalars, `np.array` of the
two scalars has shape (2,), and `.T` of a 1-D array is itself: the
result is a flat length-2 vector, not a 1×2 batch. -/
inductive SignalM where
  | flat : ℚ → ℚ → SignalM
  | batch : List (ℚ × ℚ) → SignalM
deriving DecidableEq, Repr

/-- `np.array([np.squeeze(re), np.squeeze(im)]).T` applied to the two 1-D
sampled batches. -/
def transmit_assemble (re im : List ℚ) : SignalM :=
  match re, im with
  | [r], [i] => .flat r i
  | rs, ims => .batch (rs.zip ims)

/-- Whether an assembled signal is a 2-D batch (one row per input). -/
def SignalM.isBatch : SignalM → Bool
  | .flat _ _ => false
  | .batch _ => true

/-- `NeuralTransmitter.transmit` (lines 187-199).  The Gaussian sampling
performed by the TensorFlow graph is modelled by taking the sampled real
and imaginary batches `re`, `im` as arguments; the function returns the
assembled signal together with the post-call instance state:

    if save:
        self.input_accum = signal_b
        self.actions_re_accum = np.squeeze(re)
        self.actions_im_accum = np.squeeze(im)
    signal_m = np.array([np.squeeze(re), np.squeeze(im)]).T
    return signal_m
-/
def transmit (st : TxState) (signal_b : List (List ℚ)) (save : Bool)
    (re im : List ℚ) : SignalM × TxState :=
  (transmit_assemble re im,
   if save then { st with cache := some ⟨signal_b, re, im⟩ } else st)

/-! ## Output normalizer (transmitter.py lines 85-89)

The normalizer acts on the two batches of candidate means produced by the
output heads.  It involves a square root, so it is modelled over `ℝ`. -/

/-- `tf.nn.relu`. -/
noncomputable def relu (x : ℝ) : ℝ := max x 0

/-- `tf.reduce_max` of a 1-D tensor.  Only used on nonempty batches
(TensorFlow returns -inf on an empty tensor; batches here have ≥ 1 row). -/
noncomputable def reduce_max : List ℝ → ℝ
  | [] => 0
  | x :: xs => xs.foldl max x

/-- `self.re_mean**2 + self.im_mean**2`: elementwise squared amplitudes
of the candidate means. -/
noncomputable def sq_amps (re im : List ℝ) : List ℝ :=
  List.zipWith (fun a b => a ^ 2 + b ^ 2) re im

/-- `self.max_amplitude = tf.sqrt(tf.reduce_max(self.re_mean**2 + self.im_mean**2))`
(line 86). -/
noncomputable def max_amplitude (re im : List ℝ) : ℝ :=
  Real.sqrt (reduce_max (sq_amps re im))

/-- `self.normalization = tf.nn.relu(self.max_amplitude-1)+1.0` (line 87). -/
noncomputable def normalization (re im : List ℝ) : ℝ :=
  relu (max_amplitude re im - 1) + 1

/-- `self.re_mean /= self.normalization` (line 88). -/
noncomputable def norm_re (re im : List ℝ) : List ℝ :=
  re.map (fun x => x / normalization re im)

/-- `self.im_mean /= self.normalization` (line 89). -/
noncomputable def norm_im (re im : List ℝ) : List ℝ :=
  im.map (fun x => x / normalization re im)

/-! ## Diagnostics: `get_stats` (transmitter.py lines 339-356) -/

/-- The attribute set of the `NeuralTransmitter` class that `get_stats`
looks up dynamically.  The class body of `NeuralTransmitter` defines the
methods `__init__`, `policy_update`, `transmit`, `visualize`, `save_ber`,
`save_energy`, `lasso_loss` and `get_stats` and nothing else; in
particular no method named `evaluate` is defined anywhere in the source,
so the `evaluate` slot records an optional implementation: `none` for
the class as written, `some f` for a hypothetical implementation `f`. -/
structure ClassMethods where
  evaluate : Option (List ℚ → ℚ × ℚ)

/-- The method table of `NeuralTransmitter` as defined in
`src/main/transmitter.py`: no `evaluate` method exists, so
`self.evaluate` raises `AttributeError`. -/
def neuralTransmitterMethods : ClassMethods := ⟨none⟩

/-- Modelled from the spec: the deterministic "evaluate-at-mean" accessor
that `get_stats` invokes as `self.evaluate` is missing from
`src/main/transmitter.py` (the spec, §4.7, requires it as a separate
deterministic path running the approximator and normalizer only,
bypassing the sampling step).  It is modelled as an arbitrary
deterministic function from a bit-vector to a (real, imaginary)
coordinate pair, attached to the method table. -/
def with_evaluate (f : List ℚ → ℚ × ℚ) : ClassMethods := ⟨some f⟩

/-- `itertools.product([-1, 1], repeat=n)`: all (-1/1)-vectors of length
`n`, first coordinate varying slowest, exactly in Python's product
order. -/
def bitstrings : ℕ → List (List ℚ)
  | 0 => [[]]
  | n + 1 =>
    ((bitstrings n).map (fun t => -1 :: t)) ++ ((bitstrings n).map (fun t => 1 :: t))

/-- `(np.array(bs) + 1) / 2` (line 348): the 0/1 label of a (-1/1)
bit-vector. -/
def label01 (bs : List ℚ) : List ℚ := bs.map (fun x => (x + 1) / 2)

/-- All 0/1-vectors of length `n` in product order (the image of
`bitstrings` under `label01`). -/
def zeroOne : ℕ → List (List ℚ)
  | 0 => [[]]
  | n + 1 =>
    ((zeroOne n).map (fun t => 0 :: t)) ++ ((zeroOne n).map (fun t => 1 :: t))

/-- The centroid-generation loop of `get_stats` (lines 346-348): for each
bit-vector call `self.evaluate` and collect the resulting coordinate
pair.  If the class has no `evaluate` attribute the first iteration
raises `AttributeError` (an empty loop body never evaluates it). -/
def gen_centroids (m : ClassMethods) : List (List ℚ) → Except PyError (List (ℚ × ℚ))
  | [] => .ok []
  | bs :: rest =>
    match m.evaluate with
    | none => .error .attributeError
    | some f =>
      match gen_centroids m rest with
      | .error e => .error e
      | .ok cs => .ok (f bs :: cs)

/-- One step of Python `dict` construction: insert a key/value pair,
overwriting the value (in place) when the key is already present. -/
def dict_insert {α β : Type} [DecidableEq α]
    (acc : List (α × β)) (p : α × β) : List (α × β) :=
  if acc.any (fun q => q.1 = p.1) then
    acc.map (fun q => if q.1 = p.1 then (q.1, p.2) else q)
  else acc ++ [p]

/-- `dict(zip(keys, values))`: Python dict built left to right, keeping
one entry per distinct key. -/
def py_dict {α β : Type} [DecidableEq α] (ps : List (α × β)) : List (α × β) :=
  ps.foldl dict_insert []

/-- `NeuralTransmitter.get_stats` (lines 339-356): generate one centroid
per bit-vector via `self.evaluate`, pair each 0/1 label with its
centroid in `centroid_dict`, and compute
`avg_power = np.average(np.sum(coords_ary**2, axis=1))`.
The third returned component, `util.avg_hamming(k, coords_ary,
labels_ary)`, is computed by the external `util` module (not part of
`src/`) from the same centroids and labels and is not modelled here. -/
def get_stats (m : ClassMethods) (n_bits : ℕ) :
    Except PyError (List (List ℚ × (ℚ × ℚ)) × ℚ) :=
  match gen_centroids m (bitstrings n_bits) with
  | .error e => .error e
  | .ok coords =>
    let labels := (bitstrings n_bits).map label01
    let centroid_dict := py_dict (labels.zip coords)
    let avg_power := np_average (coords.map (fun c => c.1 ^ 2 + c.2 ^ 2))
    .ok (centroid_dict, avg_power)

/-! ## Lemmas about `reduce_max` and the normalizer -/

lemma le_foldl_max (a : ℝ) (l : List ℝ) : a ≤ l.foldl max a := by
  induction l generalizing a with
  | nil => simp
  | cons x xs ih => exact le_trans (le_max_left a x) (ih _)

lemma mem_le_foldl_max {x : ℝ} (a : ℝ) {l : List ℝ} (hx : x ∈ l) :
    x ≤ l.foldl max a := by
  induction l generalizing a with
  | nil => cases hx
  | cons y ys ih =>
    rcases List.mem_cons.mp hx with h | h
    · subst h
      exact le_trans (le_max_right a x) (le_foldl_max _ _)
    · exact ih _ h

lemma le_reduce_max {x : ℝ} {l : List ℝ} (hx : x ∈ l) : x ≤ reduce_max l := by
  cases l with
  | nil => cases hx
  | cons y ys =>
    rcases List.mem_cons.mp hx with h | h
    · subst h
      exact le_foldl_max _ _
    · exact mem_le_foldl_max _ h

lemma max_amplitude_nonneg (re im : List ℝ) : 0 ≤ max_amplitude re im :=
  Real.sqrt_nonneg _

lemma one_le_normalization (re im : List ℝ) : 1 ≤ normalization re im := by
  have : (0 : ℝ) ≤ relu (max_amplitude re im - 1) := le_max_right _ _
  unfold normalization
  linarith

lemma max_amplitude_le_normalization (re im : List ℝ) :
    max_amplitude re im ≤ normalization re im := by
  have : max_amplitude re im - 1 ≤ relu (max_amplitude re im - 1) := le_max_left _ _
  unfold normalization
  linarith

lemma norm_re_getD (re im : List ℝ) {i : ℕ} (hi : i < re.length) :
    (norm_re re im).getD i 0 = re.getD i 0 / normalization re im := by
  have h1 : i < (norm_re re im).length := by simpa [norm_re] using hi
  rw [List.getD_eq_getElem _ _ h1, List.getD_eq_getElem _ _ hi]
  simp [norm_re]

lemma norm_im_getD (re im : List ℝ) {i : ℕ} (hi : i < im.length) :
    (norm_im re im).getD i 0 = im.getD i 0 / normalization re im := by
  have h1 : i < (norm_im re im).length := by simpa [norm_im] using hi
  rw [List.getD_eq_getElem _ _ h1, List.getD_eq_getElem _ _ hi]
  simp [norm_im]

/-- C1: with `restrict_energy` enabled, the output normalizer divides both
mean batches by `D = relu(A - 1) + 1` where `A = sqrt(max(re^2 + im^2))`;
every post-normalization symbol amplitude is at most 1, and whenever
`A ≤ 1` the normalized outputs equal the raw outputs exactly. -/
theorem normalizer_bounds_amplitude (re im : List ℝ)
    (hlen : re.length = im.length) (i : ℕ) (hi : i < re.length) :
    Real.sqrt (((norm_re re im).getD i 0) ^ 2 + ((norm_im re im).getD i 0) ^ 2) ≤ 1
    ∧ (max_amplitude re im ≤ 1 → norm_re re im = re ∧ norm_im re im = im) := by
  constructor
  · have hi' : i < im.length := hlen ▸ hi
    have hD1 : 1 ≤ normalization re im := one_le_normalization re im
    have hD0 : (0 : ℝ) < normalization re im := lt_of_lt_of_le one_pos hD1
    have hi2 : i < (sq_amps re im).length := by
      simp only [sq_amps, List.length_zipWith]
      omega
    have hval : (sq_amps re im)[i] = re.getD i 0 ^ 2 + im.getD i 0 ^ 2 := by
      rw [List.getD_eq_getElem re 0 hi, List.getD_eq_getElem im 0 hi']
      simp [sq_amps, List.getElem_zipWith]
    have hmem : re.getD i 0 ^ 2 + im.getD i 0 ^ 2 ∈ sq_amps re im := by
      rw [← hval]
      exact List.getElem_mem _
    have hle : re.getD i 0 ^ 2 + im.getD i 0 ^ 2 ≤ reduce_max (sq_amps re im) :=
      le_reduce_max hmem
    have hs0 : (0 : ℝ) ≤ re.getD i 0 ^ 2 + im.getD i 0 ^ 2 := by positivity
    have hM0 : (0 : ℝ) ≤ reduce_max (sq_amps re im) := le_trans hs0 hle
    have hA2 : max_amplitude re im ^ 2 = reduce_max (sq_amps re im) := by
      unfold max_amplitude
      exact Real.sq_sqrt hM0
    have hD2 : reduce_max (sq_amps re im) ≤ normalization re im ^ 2 := by
      rw [← hA2]
      exact pow_le_pow_left₀ (max_amplitude_nonneg re im)
        (max_amplitude_le_normalization re im) 2
    have hfrac : ((norm_re re im).getD i 0) ^ 2 + ((norm_im re im).getD i 0) ^ 2 ≤ 1 := by
      rw [norm_re_getD re im hi, norm_im_getD re im hi', div_pow, div_pow,
        div_add_div_same, div_le_one (by positivity)]
      exact le_trans hle hD2
    exact Real.sqrt_le_one.mpr (by linarith)
  · intro hA
    have hrelu : relu (max_amplitude re im - 1) = 0 :=
      max_eq_right (by linarith)
    have hD : normalization re im = 1 := by
      unfold normalization
      rw [hrelu]
      ring
    constructor
    · simp [norm_re, hD]
    · simp [norm_im, hD]

/-- Witness for C1 at the concrete batch `re = [1/2]`, `im = [0]`. -/
theorem normalizer_bounds_amplitude_witness :
    Real.sqrt (((norm_re [(1 : ℝ)/2] [0]).getD 0 0) ^ 2
        + ((norm_im [(1 : ℝ)/2] [0]).getD 0 0) ^ 2) ≤ 1
    ∧ (max_amplitude [(1 : ℝ)/2] [0] ≤ 1 →
        norm_re [(1 : ℝ)/2] [0] = [(1 : ℝ)/2] ∧ norm_im [(1 : ℝ)/2] [0] = [0]) :=
  normalizer_bounds_amplitude [(1 : ℝ)/2] [0] rfl 0 (by norm_num)

/-! ## Lemmas about `lasso_loss` and `policy_update` -/

lemma l1norm_nonneg (row : List ℚ) : 0 ≤ l1norm row := by
  apply List.sum_nonneg
  intro x hx
  obtain ⟨z, _, rfl⟩ := List.mem_map.mp hx
  exact abs_nonneg z

lemma l1norm_zipsub_eq_zero_iff (a b : List ℚ) (h : a.length = b.length) :
    l1norm (List.zipWith (fun x y => x - y) a b) = 0 ↔ b = a := by
  induction a generalizing b with
  | nil =>
    cases b with
    | nil => simp [l1norm]
    | cons y ys => simp at h
  | cons x xs ih =>
    cases b with
    | nil => simp at h
    | cons y ys =>
      have hlen : xs.length = ys.length := by simpa using h
      have hsum : l1norm (List.zipWith (fun x y => x - y) (x :: xs) (y :: ys))
          = |x - y| + l1norm (List.zipWith (fun x y => x - y) xs ys) := by
        simp [l1norm]
      rw [hsum, add_eq_zero_iff_of_nonneg (abs_nonneg _) (l1norm_nonneg _), ih ys hlen]
      constructor
      · rintro ⟨h1, h2⟩
        have hxy : x = y := sub_eq_zero.mp (abs_eq_zero.mp h1)
        rw [h2, hxy]
      · intro h'
        injection h' with h1 h2
        exact ⟨by rw [h1, sub_self, abs_zero], h2⟩

/-- Evaluation of `lasso_loss` on an aligned guess batch: with the cache
present and all batch lengths equal, the result is the per-sample L1
distance between the cached input row and the guess row, plus (when
`restrict_energy` is disabled) the power penalty of the cached sampled
symbol. -/
lemma lasso_loss_aligned (st : TxState) (tr : Traj) (g : List (List ℚ))
    (hc : st.cache = some tr)
    (hB : tr.input_accum.length = g.length)
    (hre : tr.actions_re_accum.length = g.length)
    (him : tr.actions_im_accum.length = g.length) :
    ∃ l : List ℚ, lasso_loss st g = .ok l ∧ l.length = g.length ∧
      ∀ i : ℕ, i < g.length →
        l.getD i 0 = l1norm (List.zipWith (fun x y => x - y)
            (tr.input_accum.getD i []) (g.getD i []))
          + (if st.restrict_energy then 0
             else st.lambda_p * ((tr.actions_re_accum.getD i 0) ^ 2
               + (tr.actions_im_accum.getD i 0) ^ 2)) := by
  have hb : bsub tr.input_accum g
      = .ok (List.zipWith (fun r s => List.zipWith (fun x y => x - y) r s)
          tr.input_accum g) := by
    unfold bsub
    rw [if_pos hB]
  have hl1len : ((List.zipWith (fun r s => List.zipWith (fun x y => x - y) r s)
      tr.input_accum g).map l1norm).length = g.length := by
    simp [List.length_zipWith, hB]
  have hl1get : ∀ i : ℕ, i < g.length →
      ((List.zipWith (fun r s => List.zipWith (fun x y => x - y) r s)
        tr.input_accum g).map l1norm).getD i 0
      = l1norm (List.zipWith (fun x y => x - y)
          (tr.input_accum.getD i []) (g.getD i [])) := by
    intro i hig
    have hiB : i < tr.input_accum.length := by omega
    have hiz : i < ((List.zipWith (fun r s => List.zipWith (fun x y => x - y) r s)
        tr.input_accum g).map l1norm).length := by omega
    rw [List.getD_eq_getElem _ _ hiz, List.getD_eq_getElem _ _ hiB,
      List.getD_eq_getElem _ _ hig]
    simp [List.getElem_zipWith]
  cases hRE : st.restrict_energy with
  | true =>
    refine ⟨_, ?_, hl1len, ?_⟩
    · simp [lasso_loss, hc, hb, hRE]
    · intro i hig
      rw [hl1get i hig]
      simp
  | false =>
    have hpenlen : (List.zipWith
        (fun r i => st.lambda_p * (r ^ 2 + i ^ 2))
        tr.actions_re_accum tr.actions_im_accum).length = g.length := by
      simp [List.length_zipWith, hre, him]
    have hadd : badd1
        ((List.zipWith (fun r s => List.zipWith (fun x y => x - y) r s)
          tr.input_accum g).map l1norm)
        (List.zipWith (fun r i => st.lambda_p * (r ^ 2 + i ^ 2))
          tr.actions_re_accum tr.actions_im_accum)
        = .ok (List.zipWith (fun x y => x + y)
            ((List.zipWith (fun r s => List.zipWith (fun x y => x - y) r s)
              tr.input_accum g).map l1norm)
            (List.zipWith (fun r i => st.lambda_p * (r ^ 2 + i ^ 2))
              tr.actions_re_accum tr.actions_im_accum)) := by
      unfold badd1
      rw [if_pos (by rw [hl1len, hpenlen])]
    refine ⟨List.zipWith (fun x y => x + y)
        ((List.zipWith (fun r s => List.zipWith (fun x y => x - y) r s)
          tr.input_accum g).map l1norm)
        (List.zipWith (fun r i => st.lambda_p * (r ^ 2 + i ^ 2))
          tr.actions_re_accum tr.actions_im_accum), ?_, ?_, ?_⟩
    · simp [lasso_loss, hc, hb, hRE, hadd]
    · simp [List.length_zipWith, hl1len, hpenlen]
    · intro i hig
      have hir : i < tr.actions_re_accum.length := by omega
      have hii : i < tr.actions_im_accum.length := by omega
      have hiz : i < (List.zipWith (fun x y => x + y)
          ((List.zipWith (fun r s => List.zipWith (fun x y => x - y) r s)
            tr.input_accum g).map l1norm)
          (List.zipWith (fun r i => st.lambda_p * (r ^ 2 + i ^ 2))
            tr.actions_re_accum tr.actions_im_accum)).length := by
        simp only [List.length_zipWith, hl1len, hpenlen]
        omega
      rw [List.getD_eq_getElem _ _ hiz]
      have hiz1 : i < ((List.zipWith (fun r s => List.zipWith (fun x y => x - y) r s)
          tr.input_accum g).map l1norm).length := by omega
      have hiz2 : i < (List.zipWith (fun r i => st.lambda_p * (r ^ 2 + i ^ 2))
          tr.actions_re_accum tr.actions_im_accum).length := by omega
      rw [List.getElem_zipWith]
      rw [← List.getD_eq_getElem _ (0 : ℚ) hiz1, ← List.getD_eq_getElem _ (0 : ℚ) hiz2,
        hl1get i hig]
      have : (List.zipWith (fun r i => st.lambda_p * (r ^ 2 + i ^ 2))
          tr.actions_re_accum tr.actions_im_accum).getD i 0
          = st.lambda_p * ((tr.actions_re_accum.getD i 0) ^ 2
            + (tr.actions_im_accum.getD i 0) ^ 2) := by
        rw [List.getD_eq_getElem _ _ hiz2, List.getD_eq_getElem _ _ hir,
          List.getD_eq_getElem _ _ hii]
        simp [List.getElem_zipWith]
      rw [this]
      simp

lemma sum_map_neg (l : List ℚ) : (l.map (fun x => -x)).sum = -l.sum := by
  induction l with
  | nil => simp
  | cons x xs ih => simp [ih]; ring

/-- C2 counterexample: with cached input `[[-1, 1]]` and guess `[[1, 1]]`
(and `restrict_energy` enabled, so the loss is exactly the base term),
`lasso_loss` returns the full L1 distance 2, not the claimed halved
value 2 / 2 = 1: the source never divides the base term by 2. -/
theorem lasso_loss_not_halved :
    lasso_loss ⟨true, 1/10, [], some ⟨[[-1, 1]], [0], [0]⟩⟩ [[1, 1]] = .ok [2]
    ∧ l1norm (List.zipWith (fun x y => x - y) [-1, 1] [1, 1]) = 2
    ∧ ¬ ((2 : ℚ) = 2 / 2) := by
  refine ⟨?_, ?_, by norm_num⟩
  · simp [lasso_loss, bsub, l1norm]
    norm_num
  · simp [l1norm]
    norm_num

/-- C2 (amended): for every cached trajectory and aligned decoded-guess
batch, `lasso_loss` returns per sample the (undivided) L1 distance
between the cached input bit-vector and the guess bit-vector; when
`restrict_energy` is enabled the loss equals exactly this base term, and
otherwise it equals the base term plus
`lambda_p * (cached_sampled_re^2 + cached_sampled_im^2)`. -/
theorem lasso_loss_per_sample (st : TxState) (tr : Traj) (g : List (List ℚ))
    (hc : st.cache = some tr)
    (hB : tr.input_accum.length = g.length)
    (hre : tr.actions_re_accum.length = g.length)
    (him : tr.actions_im_accum.length = g.length)
    (i : ℕ) (hi : i < g.length) :
    ∃ l : List ℚ, lasso_loss st g = .ok l ∧ l.length = g.length ∧
      l.getD i 0 = l1norm (List.zipWith (fun x y => x - y)
          (tr.input_accum.getD i []) (g.getD i []))
        + (if st.restrict_energy then 0
           else st.lambda_p * ((tr.actions_re_accum.getD i 0) ^ 2
             + (tr.actions_im_accum.getD i 0) ^ 2)) := by
  obtain ⟨l, h1, h2, h3⟩ := lasso_loss_aligned st tr g hc hB hre him
  exact ⟨l, h1, h2, h3 i hi⟩

/-- Witness for the amended C2: cached input `[[-1, 1]]`, sampled symbol
`(2, 3)`, guess `[[1, 1]]`, `restrict_energy` disabled, `lambda_p = 1/10`. -/
theorem lasso_loss_per_sample_witness :
    ∃ l : List ℚ,
      lasso_loss ⟨false, 1/10, [], some ⟨[[-1, 1]], [2], [3]⟩⟩ [[1, 1]] = .ok l
      ∧ l.length = ([[1, 1]] : List (List ℚ)).length
      ∧ l.getD 0 0 = l1norm (List.zipWith (fun x y => x - y)
            (([[-1, 1]] : List (List ℚ)).getD 0 []) (([[1, 1]] : List (List ℚ)).getD 0 []))
          + (if false then 0 else (1/10 : ℚ) * ((2 : ℚ) ^ 2 + (3 : ℚ) ^ 2)) :=
  lasso_loss_per_sample ⟨false, 1/10, [], some ⟨[[-1, 1]], [2], [3]⟩⟩
    ⟨[[-1, 1]], [2], [3]⟩ [[1, 1]] rfl rfl rfl rfl 0 (by norm_num)

/-- C3: for aligned batches every per-sample lasso loss value is
nonnegative, and a sample's loss is 0 iff the decoded guess matches the
cached input bit-vector and, when `restrict_energy` is false, the cached
sampled symbol has zero energy.  `lambda_p` is assumed positive, as the
spec's configuration validity rules require. -/
theorem lasso_loss_nonneg_zero_iff (st : TxState) (tr : Traj) (g : List (List ℚ))
    (hc : st.cache = some tr)
    (hB : tr.input_accum.length = g.length)
    (hre : tr.actions_re_accum.length = g.length)
    (him : tr.actions_im_accum.length = g.length)
    (hrows : ∀ j : ℕ, j < g.length →
      (tr.input_accum.getD j []).length = (g.getD j []).length)
    (hlam : 0 < st.lambda_p)
    (i : ℕ) (hi : i < g.length) :
    ∃ l : List ℚ, lasso_loss st g = .ok l ∧ 0 ≤ l.getD i 0 ∧
      (l.getD i 0 = 0 ↔ (g.getD i [] = tr.input_accum.getD i []
        ∧ (st.restrict_energy = false →
            (tr.actions_re_accum.getD i 0) ^ 2 + (tr.actions_im_accum.getD i 0) ^ 2 = 0))) := by
  obtain ⟨l, h1, h2, h3⟩ := lasso_loss_aligned st tr g hc hB hre him
  have hform := h3 i hi
  have hiff := l1norm_zipsub_eq_zero_iff
    (tr.input_accum.getD i []) (g.getD i []) (hrows i hi)
  have hL0 := l1norm_nonneg (List.zipWith (fun x y => x - y)
    (tr.input_accum.getD i []) (g.getD i []))
  have hP0 : 0 ≤ st.lambda_p * ((tr.actions_re_accum.getD i 0) ^ 2
      + (tr.actions_im_accum.getD i 0) ^ 2) :=
    mul_nonneg hlam.le (by positivity)
  refine ⟨l, h1, ?_, ?_⟩
  · rw [hform]
    have hcond : (0 : ℚ) ≤ (if st.restrict_energy then 0
        else st.lambda_p * ((tr.actions_re_accum.getD i 0) ^ 2
          + (tr.actions_im_accum.getD i 0) ^ 2)) := by
      split
      · exact le_refl 0
      · exact hP0
    linarith
  · rw [hform]
    by_cases hRE : st.restrict_energy = true
    · rw [if_pos hRE, add_zero, hiff]
      simp [hRE]
    · have hRE' : st.restrict_energy = false := Bool.not_eq_true _ ▸ hRE
      rw [if_neg hRE, add_eq_zero_iff_of_nonneg hL0 hP0, hiff]
      rw [hRE']
      simp only [forall_const]
      constructor
      · rintro ⟨hg, hp⟩
        refine ⟨hg, ?_⟩
        rcases mul_eq_zero.mp hp with h | h
        · exact absurd h hlam.ne'
        · exact h
      · rintro ⟨hg, hp⟩
        exact ⟨hg, by rw [hp, mul_zero]⟩

/-- Witness for C3: cached input `[[1, -1]]`, sampled symbol `(0, 0)`,
guess `[[1, -1]]`, `restrict_energy` disabled: the loss is 0 and the
zero-iff condition holds. -/
theorem lasso_loss_nonneg_zero_iff_witness :
    ∃ l : List ℚ,
      lasso_loss ⟨false, 1/10, [], some ⟨[[1, -1]], [0], [0]⟩⟩ [[1, -1]] = .ok l
      ∧ 0 ≤ l.getD 0 0
      ∧ (l.getD 0 0 = 0 ↔ ((([[1, -1]] : List (List ℚ)).getD 0 []
            = ([[1, -1]] : List (List ℚ)).getD 0 [])
          ∧ (false = false → (([0] : List ℚ).getD 0 0) ^ 2 + (([0] : List ℚ).getD 0 0) ^ 2 = 0))) :=
  lasso_loss_nonneg_zero_iff ⟨false, 1/10, [], some ⟨[[1, -1]], [0], [0]⟩⟩
    ⟨[[1, -1]], [0], [0]⟩ [[1, -1]] rfl rfl rfl rfl
    (fun _ _ => rfl) (by norm_num) 0 (by norm_num)

/-- C4 counterexample: the claim fails for an aligned batch of size 1.
`transmit(save=True)` on the single input `[[1, 1]]` caches the 0-d
squeezed actions (stored batch length 1); the aligned guess `[[1, 1]]`
gives lasso loss `[0]`, yet `policy_update` raises ValueError at the
session feed of the 0-d accumulators and returns no mean at all. -/
theorem policy_update_single_sample_feed_error :
    lasso_loss ⟨true, 1/10, [], some ⟨[[1, 1]], [0], [0]⟩⟩ [[1, 1]] = .ok [0]
    ∧ policy_update_ret ⟨true, 1/10, [], some ⟨[[1, 1]], [0], [0]⟩⟩ [[1, 1]]
      = .error .valueError := by
  have hll : lasso_loss ⟨true, 1/10, [], some ⟨[[1, 1]], [0], [0]⟩⟩ [[1, 1]] = .ok [0] := by
    simp [lasso_loss, bsub, l1norm]
  refine ⟨hll, ?_⟩
  simp only [policy_update_ret, hll]
  norm_num

/-- C4 (amended): for every decoded-guess batch aligned with a cached
trajectory whose action accumulators are 1-D (cached batch length ≠ 1,
so the squeeze did not produce 0-d scalars), `policy_update` returns the
mean over the batch of the advantage, each sample's advantage being the
negation of its lasso loss, and nothing else; a trajectory cached from a
batch of length 1 instead fails the session feed-shape check with
ValueError and nothing is returned. -/
theorem policy_update_returns_mean_advantage (st : TxState) (tr : Traj)
    (g : List (List ℚ)) (hc : st.cache = some tr) (l : List ℚ)
    (hl : lasso_loss st g = .ok l)
    (hre1 : tr.actions_re_accum.length ≠ 1)
    (him1 : tr.actions_im_accum.length ≠ 1) :
    policy_update_ret st g = .ok (np_average (l.map (fun x => -x)))
    ∧ np_average (l.map (fun x => -x)) = -(l.sum / l.length) := by
  refine ⟨?_, ?_⟩
  · simp only [policy_update_ret, hl, hc]
    rw [if_neg (not_or.mpr ⟨hre1, him1⟩)]
  · rw [np_average, sum_map_neg, List.length_map, neg_div]

/-- Witness for the amended C4: cached batch of two samples (1-D
accumulators of length 2) with losses `[0, 2]`. -/
theorem policy_update_returns_mean_advantage_witness :
    policy_update_ret ⟨true, 1/10, [], some ⟨[[1, 1], [-1, 1]], [0, 0], [0, 0]⟩⟩
        [[1, 1], [1, 1]]
      = .ok (np_average (([0, 2] : List ℚ).map (fun x => -x)))
    ∧ np_average (([0, 2] : List ℚ).map (fun x => -x))
      = -(([0, 2] : List ℚ).sum / ([0, 2] : List ℚ).length) :=
  policy_update_returns_mean_advantage
    ⟨true, 1/10, [], some ⟨[[1, 1], [-1, 1]], [0, 0], [0, 0]⟩⟩
    ⟨[[1, 1], [-1, 1]], [0, 0], [0, 0]⟩
    [[1, 1], [1, 1]] rfl [0, 2]
    (by
      simp [lasso_loss, bsub, l1norm]
      norm_num)
    (by norm_num) (by norm_num)

/-- C7 counterexample: with a cached batch of length 2 and a guess batch
of length 1 (lengths differ), `lasso_loss` and `policy_update` raise no
error at all: numpy silently broadcasts the single guess row against the
cached batch and a result is returned. -/
theorem policy_update_broadcasts_length_one :
    ([[1, 1], [-1, 1]] : List (List ℚ)).length ≠ ([[1, 1]] : List (List ℚ)).length
    ∧ lasso_loss ⟨true, 1/10, [], some ⟨[[1, 1], [-1, 1]], [0, 0], [0, 0]⟩⟩ [[1, 1]]
      = .ok [0, 2]
    ∧ policy_update_ret ⟨true, 1/10, [], some ⟨[[1, 1], [-1, 1]], [0, 0], [0, 0]⟩⟩ [[1, 1]]
      = .ok (-1) := by
  refine ⟨by norm_num, ?_, ?_⟩
  · simp [lasso_loss, bsub, l1norm]
    norm_num
  · simp [policy_update_ret, lasso_loss, bsub, l1norm, np_average]
    norm_num

/-- C7 (amended): with a cached trajectory of batch length B (its three
fields aligned, as `transmit(save=True)` stores them) and a guess batch
of length B' with B' ≠ B and B' ≠ 1, `policy_update` fails with a
ValueError: for B ≥ 2 the numpy subtraction inside `lasso_loss` cannot
broadcast the two batches, and for B = 1 `lasso_loss` broadcasts the
single cached row but the 0-d squeezed action accumulators then fail the
session feed-shape check.  Only a guess batch of length B' = 1 (against
B ≥ 2) is silently broadcast, returning a result with no error. -/
theorem policy_update_shape_mismatch (st : TxState) (tr : Traj) (g : List (List ℚ))
    (hc : st.cache = some tr)
    (hra : tr.actions_re_accum.length = tr.input_accum.length)
    (hia : tr.actions_im_accum.length = tr.input_accum.length)
    (hne : tr.input_accum.length ≠ g.length)
    (hg1 : g.length ≠ 1) :
    policy_update_ret st g = .error .valueError := by
  by_cases hB1 : tr.input_accum.length = 1
  · have hb : bsub tr.input_accum g
        = .ok (g.map (fun s => List.zipWith (fun x y => x - y) (tr.input_accum.headI) s)) := by
      unfold bsub
      rw [if_neg hne, if_neg hg1, if_pos hB1]
    have hok : ∃ l, lasso_loss st g = .ok l := by
      simp only [lasso_loss, hc, hb]
      split
      · exact ⟨_, rfl⟩
      · have hl1len : ((g.map (fun s => List.zipWith (fun x y => x - y)
            (tr.input_accum.headI) s)).map l1norm).length = g.length := by
          simp
        have hpen : (List.zipWith (fun r i => st.lambda_p * (r ^ 2 + i ^ 2))
            tr.actions_re_accum tr.actions_im_accum).length = 1 := by
          simp [List.length_zipWith, hra, hia, hB1]
        unfold badd1
        rw [if_neg (by rw [hl1len, hpen]; exact hg1), if_pos hpen]
        exact ⟨_, rfl⟩
    obtain ⟨l, hll⟩ := hok
    have hre1 : tr.actions_re_accum.length = 1 := by rw [hra, hB1]
    simp [policy_update_ret, hll, hc, hre1]
  · have hb : bsub tr.input_accum g = .error .valueError := by
      unfold bsub
      rw [if_neg hne, if_neg hg1, if_neg hB1]
    have hll : lasso_loss st g = .error .valueError := by
      simp [lasso_loss, hc, hb]
    simp [policy_update_ret, hll]

/-- Witness for the amended C7: cached batch length 2, guess batch
length 3. -/
theorem policy_update_shape_mismatch_witness :
    policy_update_ret ⟨true, 1/10, [], some ⟨[[1], [1]], [0, 0], [0, 0]⟩⟩ [[1], [1], [1]]
      = .error .valueError :=
  policy_update_shape_mismatch ⟨true, 1/10, [], some ⟨[[1], [1]], [0, 0], [0, 0]⟩⟩
    ⟨[[1], [1]], [0, 0], [0, 0]⟩ [[1], [1], [1]] rfl rfl rfl
    (by norm_num) (by norm_num)

/-- C8: calling the loss or update path on a state whose Trajectory Cache
was never populated by `transmit(..., save=True)` fails immediately with
`AttributeError` (the spec's UninitializedTrajectory), returning no
result. -/
theorem uninitialized_trajectory_errors (st : TxState) (g : List (List ℚ))
    (h : st.cache = none) :
    lasso_loss st g = .error .attributeError
    ∧ policy_update_ret st g = .error .attributeError := by
  have hll : lasso_loss st g = .error .attributeError := by
    simp [lasso_loss, h]
  exact ⟨hll, by simp [policy_update_ret, hll]⟩

/-- Witness for C8: the freshly constructed state (`__init__` never
assigns the accumulators). -/
theorem uninitialized_trajectory_errors_witness :
    lasso_loss (init_state false (1/10) []) [[1, 1]] = .error .attributeError
    ∧ policy_update_ret (init_state false (1/10) []) [[1, 1]] = .error .attributeError :=
  uninitialized_trajectory_errors (init_state false (1/10) []) [[1, 1]] rfl

/-- C5 counterexample: for a batch of size B = 1, the assembly
`np.array([np.squeeze(re), np.squeeze(im)]).T` collapses the batch axis
(squeeze of a shape-(1,) array is a 0-d scalar, and `.T` of a 1-D array
is itself): `transmit` returns the flat pair (3, 4), not a batch with
one (real, imaginary) row. -/
theorem transmit_single_sample_flat :
    (transmit (init_state true (1/10) []) [[1, 1]] false [3] [4]).1 = SignalM.flat 3 4
    ∧ SignalM.isBatch (transmit (init_state true (1/10) []) [[1, 1]] false [3] [4]).1
      = false := by
  exact ⟨rfl, rfl⟩

/-- C5 (amended): for every batch of size B ≥ 2, `transmit` returns a
batch of exactly B (real, imaginary) rows, row i holding the sampled
real and imaginary parts for input i; for B = 1 the batch axis is
collapsed and a flat length-2 vector is returned instead. -/
theorem transmit_batch_shape (st : TxState) (signal_b : List (List ℚ)) (save : Bool)
    (re im : List ℚ) (hlen : re.length = im.length) (h2 : 2 ≤ re.length)
    (i : ℕ) (hi : i < re.length) :
    ∃ rows : List (ℚ × ℚ), (transmit st signal_b save re im).1 = .batch rows
      ∧ rows.length = re.length
      ∧ rows.getD i (0, 0) = (re.getD i 0, im.getD i 0) := by
  obtain ⟨a, re1, rfl⟩ : ∃ a re1, re = a :: re1 := by
    cases re with
    | nil => simp at h2
    | cons a re1 => exact ⟨a, re1, rfl⟩
  obtain ⟨b, re2, rfl⟩ : ∃ b re2, re1 = b :: re2 := by
    cases re1 with
    | nil => simp at h2
    | cons b re2 => exact ⟨b, re2, rfl⟩
  obtain ⟨c, im1, rfl⟩ : ∃ c im1, im = c :: im1 := by
    cases im with
    | nil => simp at hlen
    | cons c im1 => exact ⟨c, im1, rfl⟩
  obtain ⟨e, im2, rfl⟩ : ∃ e im2, im1 = e :: im2 := by
    cases im1 with
    | nil => simp at hlen
    | cons e im2 => exact ⟨e, im2, rfl⟩
  have hlen' : re2.length = im2.length := by simpa using hlen
  refine ⟨(a :: b :: re2).zip (c :: e :: im2), rfl, ?_, ?_⟩
  · simp [List.length_zip, hlen']
  · have hi' : i < (c :: e :: im2).length := by
      simpa [← hlen] using hi
    have hiz : i < ((a :: b :: re2).zip (c :: e :: im2)).length := by
      simp only [List.length_zip]
      simp only [List.length_cons] at hi hi' ⊢
      omega
    rw [List.getD_eq_getElem _ _ hiz, List.getD_eq_getElem _ _ hi,
      List.getD_eq_getElem _ _ hi']
    exact List.getElem_zip

/-- Witness for the amended C5: batch of size 2 with samples
`re = [3, 5]`, `im = [4, 6]`. -/
theorem transmit_batch_shape_witness :
    ∃ rows : List (ℚ × ℚ),
      (transmit (init_state true (1/10) []) [[1, 1], [1, -1]] false [3, 5] [4, 6]).1
        = .batch rows
      ∧ rows.length = ([3, 5] : List ℚ).length
      ∧ rows.getD 0 (0, 0) = (([3, 5] : List ℚ).getD 0 0, ([4, 6] : List ℚ).getD 0 0) :=
  transmit_batch_shape (init_state true (1/10) []) [[1, 1], [1, -1]] false
    [3, 5] [4, 6] rfl (by norm_num) 0 (by norm_num)

/-- C6: `transmit` with `save=True` overwrites the Trajectory Cache with
exactly the triple (input batch, sampled real batch, sampled imaginary
batch) and changes nothing else in the state; with `save=False` the
entire state — cache and policy parameters — is left unchanged. -/
theorem transmit_frame_effect (st : TxState) (signal_b : List (List ℚ))
    (re im : List ℚ) :
    (transmit st signal_b true re im).2
      = { st with cache := some ⟨signal_b, re, im⟩ }
    ∧ (transmit st signal_b false re im).2 = st := by
  exact ⟨rfl, rfl⟩

/-! ## Lemmas about `bitstrings`, labels, `py_dict` and `get_stats` -/

lemma bitstrings_length (n : ℕ) : (bitstrings n).length = 2 ^ n := by
  induction n with
  | zero => rfl
  | succ n ih =>
    simp only [bitstrings, List.length_append, List.length_map, ih, pow_succ]
    ring

lemma bitstrings_ne_nil (n : ℕ) : bitstrings n ≠ [] := by
  intro h
  have hl := bitstrings_length n
  rw [h] at hl
  have hp : 0 < 2 ^ n := pow_pos (by norm_num) n
  simp at hl
  omega

lemma map_label01_bitstrings (n : ℕ) : (bitstrings n).map label01 = zeroOne n := by
  induction n with
  | zero => rfl
  | succ n ih =>
    have h0 : ∀ t : List ℚ, label01 (-1 :: t) = 0 :: label01 t := by
      intro t
      simp [label01]
    have h1 : ∀ t : List ℚ, label01 (1 :: t) = 1 :: label01 t := by
      intro t
      simp [label01]
    rw [bitstrings, zeroOne, List.map_append, List.map_map, List.map_map,
      ← ih, List.map_map, List.map_map]
    congr 1
    · exact List.map_congr_left (fun t _ => h0 t)
    · exact List.map_congr_left (fun t _ => h1 t)

lemma zeroOne_nodup (n : ℕ) : (zeroOne n).Nodup := by
  induction n with
  | zero => simp [zeroOne]
  | succ n ih =>
    rw [zeroOne]
    apply List.Nodup.append
    · exact ih.map (fun a b h => by injection h)
    · exact ih.map (fun a b h => by injection h)
    · rw [List.disjoint_left]
      rintro x hx hy
      obtain ⟨t, _, rfl⟩ := List.mem_map.mp hx
      obtain ⟨s, _, hcons⟩ := List.mem_map.mp hy
      injection hcons with hhead _
      norm_num at hhead

lemma mem_zeroOne_iff (n : ℕ) (v : List ℚ) :
    v ∈ zeroOne n ↔ (v.length = n ∧ ∀ x ∈ v, x = 0 ∨ x = 1) := by
  induction n generalizing v with
  | zero =>
    simp only [zeroOne, List.mem_singleton]
    constructor
    · rintro rfl
      simp
    · rintro ⟨h1, _⟩
      exact List.length_eq_zero.mp h1
  | succ n ih =>
    rw [zeroOne]
    simp only [List.mem_append, List.mem_map]
    constructor
    · rintro (⟨t, ht, rfl⟩ | ⟨t, ht, rfl⟩)
      · obtain ⟨hl, hall⟩ := (ih t).mp ht
        refine ⟨by simp [hl], ?_⟩
        intro x hx
        rcases List.mem_cons.mp hx with rfl | hx'
        · exact Or.inl rfl
        · exact hall x hx'
      · obtain ⟨hl, hall⟩ := (ih t).mp ht
        refine ⟨by simp [hl], ?_⟩
        intro x hx
        rcases List.mem_cons.mp hx with rfl | hx'
        · exact Or.inr rfl
        · exact hall x hx'
    · rintro ⟨hl, hall⟩
      cases v with
      | nil => simp at hl
      | cons x t =>
        have hx := hall x (List.mem_cons_self _ _)
        have ht' : t ∈ zeroOne n := (ih t).mpr
          ⟨by simpa using hl, fun y hy => hall y (List.mem_cons_of_mem _ hy)⟩
        rcases hx with rfl | rfl
        · exact Or.inl ⟨t, ht', rfl⟩
        · exact Or.inr ⟨t, ht', rfl⟩

lemma count_one_of_nodup {l : List (List ℚ)} {v : List ℚ}
    (hnd : l.Nodup) (hv : v ∈ l) : l.count v = 1 := by
  induction l with
  | nil => cases hv
  | cons x xs ih =>
    rcases List.mem_cons.mp hv with rfl | hv'
    · rw [List.count_cons_self]
      have hnotin : v ∉ xs := (List.nodup_cons.mp hnd).1
      rw [List.count_eq_zero.mpr hnotin]
    · have hne : v ≠ x := by
        rintro rfl
        exact (List.nodup_cons.mp hnd).1 hv'
      rw [List.count_cons_of_ne hne]
      exact ih (List.nodup_cons.mp hnd).2 hv'

lemma gen_centroids_some (f : List ℚ → ℚ × ℚ) (l : List (List ℚ)) :
    gen_centroids ⟨some f⟩ l = .ok (l.map f) := by
  induction l with
  | nil => rfl
  | cons b rest ih => simp [gen_centroids, ih]

lemma foldl_dict_insert {α β : Type} [DecidableEq α] (ps : List (α × β)) :
    ∀ acc : List (α × β), (acc.map Prod.fst ++ ps.map Prod.fst).Nodup →
      ps.foldl dict_insert acc = acc ++ ps := by
  induction ps with
  | nil =>
    intro acc _
    simp
  | cons p rest ih =>
    intro acc h
    have hd : (acc.map Prod.fst).Disjoint (p.1 :: rest.map Prod.fst) :=
      (List.nodup_append.mp (by simpa using h)).2.2
    have hnot : ¬ (acc.any (fun q => q.1 = p.1) = true) := by
      rw [List.any_eq_true]
      rintro ⟨q, hq, hqe⟩
      have hmem : q.1 ∈ acc.map Prod.fst := List.mem_map_of_mem _ hq
      have heq : q.1 = p.1 := of_decide_eq_true hqe
      exact hd (heq ▸ hmem) (List.mem_cons_self _ _)
    have hins : dict_insert acc p = acc ++ [p] := by
      unfold dict_insert
      rw [if_neg hnot]
    rw [List.foldl_cons, hins, ih (acc ++ [p])
      (by simpa [List.append_assoc] using h), List.append_assoc]
    simp

lemma py_dict_of_nodup_keys {α β : Type} [DecidableEq α] (ps : List (α × β))
    (h : (ps.map Prod.fst).Nodup) : py_dict ps = ps := by
  have := foldl_dict_insert ps [] (by simpa using h)
  simpa [py_dict] using this

/-- C10: every call of `get_stats` on the class as written fails with an
attribute-lookup error before returning any result: the loop over the
(never empty) list of bit-vectors invokes `self.evaluate` on its first
iteration and `NeuralTransmitter` defines no method named `evaluate`. -/
theorem get_stats_raises_attribute_error (n : ℕ) :
    get_stats neuralTransmitterMethods n = .error .attributeError := by
  cases hbs : bitstrings n with
  | nil => exact absurd hbs (bitstrings_ne_nil n)
  | cons b rest =>
    simp [get_stats, hbs, gen_centroids, neuralTransmitterMethods]

/-- C9: with the missing deterministic evaluate-at-mean accessor supplied
(modelled from the spec, §4.7), every `get_stats` call succeeds and
returns a centroid dictionary with exactly 2^n_bits entries whose keys
are precisely the 0/1 bit-vector labels, each appearing exactly once,
each centroid being the deterministic evaluation of its bit-vector, and
an average transmit power equal to the mean over all centroids of
re^2 + im^2. -/
theorem get_stats_centroids (f : List ℚ → ℚ × ℚ) (n : ℕ) :
    ∃ d : List (List ℚ × (ℚ × ℚ)), ∃ p : ℚ,
      get_stats (with_evaluate f) n = .ok (d, p)
      ∧ d.length = 2 ^ n
      ∧ (d.map Prod.fst).Nodup
      ∧ (∀ v ∈ zeroOne n, (d.map Prod.fst).count v = 1)
      ∧ (∀ v : List ℚ, v ∈ d.map Prod.fst ↔ (v.length = n ∧ ∀ x ∈ v, x = 0 ∨ x = 1))
      ∧ p = (d.map (fun e => e.2.1 ^ 2 + e.2.2 ^ 2)).sum / (2 ^ n : ℚ)
      ∧ (∀ bs ∈ bitstrings n, (label01 bs, f bs) ∈ d) := by
  have hzip : ((bitstrings n).map label01).zip ((bitstrings n).map f)
      = (bitstrings n).map (fun bs => (label01 bs, f bs)) :=
    List.zip_map' label01 f (bitstrings n)
  have hkeys : ((bitstrings n).map (fun bs => (label01 bs, f bs))).map Prod.fst
      = zeroOne n := by
    rw [List.map_map, ← map_label01_bitstrings n]
    rfl
  have hnodup : (((bitstrings n).map (fun bs => (label01 bs, f bs))).map Prod.fst).Nodup := by
    rw [hkeys]
    exact zeroOne_nodup n
  have hdict : py_dict (((bitstrings n).map label01).zip ((bitstrings n).map f))
      = (bitstrings n).map (fun bs => (label01 bs, f bs)) := by
    rw [hzip]
    exact py_dict_of_nodup_keys _ hnodup
  refine ⟨(bitstrings n).map (fun bs => (label01 bs, f bs)),
    np_average (((bitstrings n).map f).map (fun c => c.1 ^ 2 + c.2 ^ 2)),
    ?_, ?_, hnodup, ?_, ?_, ?_, ?_⟩
  · simp only [get_stats, with_evaluate, gen_centroids_some, hdict]
  · simp [bitstrings_length]
  · intro v hv
    rw [hkeys]
    exact count_one_of_nodup (zeroOne_nodup n) hv
  · intro v
    rw [hkeys]
    exact mem_zeroOne_iff n v
  · rw [np_average, List.map_map, List.map_map]
    have hlen : ((bitstrings n).map ((fun c : ℚ × ℚ => c.1 ^ 2 + c.2 ^ 2) ∘ f)).length
        = 2 ^ n := by
      simp [bitstrings_length]
    rw [hlen]
    push_cast
    rfl
  · intro bs hbs
    exact List.mem_map_of_mem _ hbs

/-- Witness for C9 at the concrete evaluate-at-mean map `fun _ => (1, 2)`
and `n_bits = 1`. -/
theorem get_stats_centroids_witness :
    ∃ d : List (List ℚ × (ℚ × ℚ)), ∃ p : ℚ,
      get_stats (with_evaluate (fun _ => ((1 : ℚ), (2 : ℚ)))) 1 = .ok (d, p)
      ∧ d.length = 2 ^ 1
      ∧ (d.map Prod.fst).Nodup
      ∧ (∀ v ∈ zeroOne 1, (d.map Prod.fst).count v = 1)
      ∧ (∀ v : List ℚ, v ∈ d.map Prod.fst ↔ (v.length = 1 ∧ ∀ x ∈ v, x = 0 ∨ x = 1))
      ∧ p = (d.map (fun e => e.2.1 ^ 2 + e.2.2 ^ 2)).sum / (2 ^ 1 : ℚ)
      ∧ (∀ bs ∈ bitstrings 1, (label01 bs, (fun _ => ((1 : ℚ), (2 : ℚ))) bs) ∈ d) :=
  get_stats_centroids (fun _ => ((1 : ℚ), (2 : ℚ))) 1

end Transmitter

